import Mathlib

/-!
Shallow embedding of the Distgit Reconciliation Engine
(oit/packages/image.py): the source-merge unit, drift detector,
modification interpreter, metadata rewriter and the driver
DistGitRepo.update_distgit_dir, together with the Python 2 string
primitives the source relies on (str.replace, str.splitlines,
str.strip, str.startswith).
-/

namespace Spec2Proof

/-! ## Python 2 string primitives -/

/-- Whitespace characters stripped by Python 2 str.strip(). -/
def isPyWhitespace (c : Char) : Bool :=
  c = ' ' || c = '\t' || c = '\n' || c = '\r' || c = '\x0b' || c = '\x0c'

/-- Python 2 str.strip() on a character list: drop whitespace from both ends. -/
def pyStripChars (l : List Char) : List Char :=
  ((l.dropWhile isPyWhitespace).reverse.dropWhile isPyWhitespace).reverse

/-- Python 2 str.strip(). -/
def pyStrip (s : String) : String :=
  ⟨pyStripChars s.data⟩

/-- Python 2 str.startswith(p) on character lists. -/
def pyStartsWith (l p : List Char) : Bool :=
  p.isPrefixOf l

/-- Scanner of Python 2 str.replace for a non-empty pattern (head mc, tail
mrest): left to right, replacing each non-overlapping occurrence by r. The
fuel argument only drives the recursion; every step consumes at least one
character, so fuel = length of the scanned list (as supplied by pyReplace)
never runs out. -/
def replaceGo (mc : Char) (mrest : List Char) (r : List Char) : List Char → Nat → List Char
  | [], _ => []
  | c :: rest, 0 => c :: rest
  | c :: rest, fuel + 1 =>
    if (mc :: mrest).isPrefixOf (c :: rest) then
      r ++ replaceGo mc mrest r (rest.drop mrest.length) fuel
    else
      c :: replaceGo mc mrest r rest fuel

/-- Python 2 str.replace(mat, rep): literal, non-overlapping, left-to-right
substitution of every occurrence; an empty pattern matches at every position
(so "abc".replace("", "-") = "-a-b-c-"). -/
def pyReplace (s mat rep : String) : String :=
  match mat.data with
  | [] => ⟨rep.data ++ (s.data.map (fun c => c :: rep.data)).flatten⟩
  | mc :: mrest => ⟨replaceGo mc mrest rep.data s.data s.data.length⟩

/-- Does the pattern m occur as a contiguous run inside s? -/
def containsSub (s m : List Char) : Bool :=
  match s with
  | [] => m.isEmpty
  | _ :: tl => m.isPrefixOf s || containsSub tl m

/-- One step of Python 2 str.splitlines(False): cur is the reversed current
line; line terminators are \n, \r and the pair \r\n; a terminator at the very
end of the string does not open a trailing empty line. -/
def splitlinesGo (cur : List Char) : List Char → List (List Char)
  | [] => [cur.reverse]
  | c :: rest =>
    if c = '\r' then
      match rest with
      | [] => [cur.reverse]
      | c2 :: rest2 =>
        if c2 = '\n' then
          cur.reverse :: (if rest2.isEmpty then [] else splitlinesGo [] rest2)
        else
          cur.reverse :: splitlinesGo [] (c2 :: rest2)
    else if c = '\n' then
      cur.reverse :: (if rest.isEmpty then [] else splitlinesGo [] rest)
    else
      splitlinesGo (c :: cur) rest

/-- Python 2 str.splitlines(False) on a character list ("" gives no lines). -/
def splitlinesChars (l : List Char) : List (List Char) :=
  match l with
  | [] => []
  | _ :: _ => splitlinesGo [] l

/-! ## Engine data model (image.py) -/

/-- Marker token of the managed comment block (image.py line 12). -/
def OIT_COMMENT_MARKER : String := "#oit## "

/-- Errors the engine can abort with. AssertionFailure stands for a failed
Python assert on a missing required field (the spec taxonomy's
ConfigurationError); IneffectiveRuleError and UnsupportedActionError are the
IOErrors raised by _run_modifications; MissingManifestError is the failed
assert_file("Dockerfile") of update_distgit_dir; OSFileError is an OSError
from a file primitive handed a path that does not exist (os.rename,
filecmp.cmp). -/
inductive EngineError
  | ConfigurationError
  | IneffectiveRuleError
  | UnsupportedActionError
  | MissingManifestError
  | OSFileError
deriving DecidableEq, Repr

/-- One entry of content.source.modifications: a config node whose action,
match and replacement attributes each may be Missing (none). The source's
field named match is called mtch here because match is a Lean keyword. -/
structure Modification where
  action : Option String
  mtch : Option String
  replacement : Option String
deriving DecidableEq, Repr

/-- The slice of the merged image configuration update_distgit_dir reads for
one image. Option stands for the config Model's Missing sentinel. -/
structure SourceConfig where
  /-- Content of the file named "Dockerfile" in the checkout right after the
  recursive copy from the resolved source path (none: no such file). -/
  tree_dockerfile : Option String
  /-- Whether a file with the configured custom dockerfile name exists in the
  checkout after the copy (examined by the rename step). -/
  tree_has_configured : Bool
  /-- content.source.dockerfile. -/
  dockerfile_name : Option String
  /-- content.source.modifications. -/
  modifications : Option (List Modification)
deriving DecidableEq, Repr

/-- Image configuration fields the engine reads. -/
structure Config where
  /-- config.name (the configured image name). -/
  name : String
  /-- metadata.name (the distgit checkout name). -/
  metadata_name : String
  /-- content.source (none when no source is configured). -/
  source : Option SourceConfig
  /-- config.labels. -/
  labels : Option (List (String × String))
  /-- config["from"].member. -/
  from_member : Option String
  /-- config["from"].image. -/
  from_image : Option String
  /-- config["from"].stream. -/
  from_stream : Option String
  /-- config.owners. -/
  owners : Option (List String)
deriving DecidableEq, Repr

/-- Mutable checkout state the engine owns: the build-file at the checkout
root and the drift snapshot at .oit/Dockerfile.git.last (none: absent). -/
structure DistgitState where
  dockerfile : Option String
  snapshot : Option String
deriving DecidableEq, Repr

/-- An owner-notification record appended to the runtime record sink
(runtime.add_record("dockerfile_notify", ...), image.py line 180). The
dockerfile field holds the build-file path passed to the sink. -/
structure Record where
  distgit : String
  dockerfile : String
  owners : String
deriving DecidableEq, Repr

/-- The external Manifest Accessor (dockerfile_parse.DockerfileParser),
consumed as an interface: labels_of parses the ordered label map out of
build-file content; content_after is the content after the label map has been
replaced by the given one and, when the base argument is some b, the FROM
directive has been set to b (none: the FROM directive was never assigned). -/
structure ManifestAccessor where
  labels_of : String → List (String × String)
  content_after : String → List (String × String) → Option String → String

/-! ## Label map operations (DockerfileParser.labels as an ordered map) -/

/-- Setting dfp.labels[k] = v: update the first entry with key k in place,
or append a new entry when k is absent. -/
def setLabel : List (String × String) → String → String → List (String × String)
  | [], k, v => [(k, v)]
  | (k0, v0) :: tl, k, v =>
    if k0 = k then (k0, v) :: tl else (k0, v0) :: setLabel tl k v

/-- Value of the first entry with key k, if any. -/
def lookupLabel : List (String × String) → String → Option String
  | [], _ => none
  | (k0, v0) :: tl, k => if k0 = k then some v0 else lookupLabel tl k

/-! ## Source Merge Unit (DistGitRepo._merge_source) -/

/-- Pre-clean keep test (image.py lines 122-138): an entry survives iff it is
hidden (name starts with ".") or on the fixed allow-list. -/
def preclean_keep (ent : String) : Bool :=
  pyStartsWith ent.data ".".data || ent ∈ ["additional-tags"]

/-- Pre-clean of the checkout: every entry failing preclean_keep is deleted
(os.remove for files, shutil.rmtree for directories). -/
def preclean (entries : List String) : List String :=
  entries.filter preclean_keep

/-- Manifest rename step (image.py lines 145-153) on the checkout filenames,
run when a custom dockerfile name dn (different from "Dockerfile") is
configured: remove "Dockerfile" if present, then rename dn to the literal
target written at line 153 — the misspelled "Dockerilfe". -/
def manifest_rename_files (files : List String) (dn : String) : List String :=
  (files.filter (fun f => f ≠ "Dockerfile")).map
    (fun f => if f = dn then "Dockerilfe" else f)

/-- Stray-file cleanup (image.py lines 156-158): drop entries whose name
starts with "Dockerfile." (e.g. Dockerfile.centos). -/
def stray_cleanup (files : List String) : List String :=
  files.filter (fun f => !(pyStartsWith f.data "Dockerfile.".data))

/-- Content found at checkout-root "Dockerfile" once the copy, rename and
cleanup steps of _merge_source are done. When a custom name is configured
the rename targets "Dockerilfe" (line 153), so no "Dockerfile" remains; when
the configured custom file is absent, os.rename raises OSError. -/
def merge_dockerfile_result (src : SourceConfig) : Except EngineError (Option String) :=
  match src.dockerfile_name with
  | some dn =>
    if dn = "Dockerfile" then Except.ok src.tree_dockerfile
    else if src.tree_has_configured then Except.ok none
    else Except.error EngineError.OSFileError
  | none => Except.ok src.tree_dockerfile

/-- Drift detector (image.py lines 160-175). Input: snapshot content at
.oit/Dockerfile.git.last (none when absent) and build-file content at the
checkout root (none when absent). Output: (notify_owner, new snapshot).
No snapshot: notify, snapshot left absent. Snapshot present: compare with
the build-file (filecmp.cmp shallow=False, i.e. content comparison; OSError
when the build-file is missing); on difference, notify and replace the
snapshot with a copy of the build-file; on equality, do nothing. -/
def drift_detect (snapshot dockerfile : Option String) :
    Except EngineError (Bool × Option String) :=
  match snapshot with
  | some last =>
    match dockerfile with
    | none => Except.error EngineError.OSFileError
    | some d =>
      if last = d then Except.ok (false, some last)
      else Except.ok (true, some d)
  | none => Except.ok (true, none)

/-- Records left for external processes (image.py lines 177-180): one
dockerfile_notify record when notify_owner is set and config.owners is not
Missing; its owners field is the comma-joined owner list and its dockerfile
field the checkout build-file path. -/
def notify_records (notify : Bool) (distgit_name : String)
    (owners : Option (List String)) : List Record :=
  if notify then
    match owners with
    | some l => [⟨distgit_name, "Dockerfile", String.intercalate ", " l⟩]
    | none => []
  else []

/-- Lines _merge_source appends to the managed comment block
(image.py lines 182-186). -/
def merge_oit_comments : List String :=
  ["The content of this file is managed from external source.",
   "Changes made directly in distgit will be lost during the next",
   "reconciliation process.",
   ""]

/-- DistGitRepo._merge_source on the modeled state: returns the checkout
build-file content after the merge, the new snapshot, and the notification
records emitted. -/
def merge_source (src : SourceConfig) (distgit_name : String)
    (owners : Option (List String)) (st : DistgitState) :
    Except EngineError (Option String × Option String × List Record) :=
  match merge_dockerfile_result src with
  | Except.error e => Except.error e
  | Except.ok df =>
    match drift_detect st.snapshot df with
    | Except.error e => Except.error e
    | Except.ok (notify, snap) =>
      Except.ok (df, snap, notify_records notify distgit_name owners)

/-! ## Modification Interpreter (DistGitRepo._run_modifications) -/

/-- One modification step (image.py lines 199-212) on the in-memory
build-file text. Only the "replace" action exists: both match and
replacement are required (a failed assert on a Missing one), the
substitution is Python str.replace, and a substitution that leaves the text
byte-identical raises the ineffective-rule IOError. Any other action raises
the unsupported-action IOError. -/
def apply_modification (data : String) (m : Modification) : Except EngineError String :=
  if m.action = some "replace" then
    match m.mtch with
    | none => Except.error EngineError.ConfigurationError
    | some mat =>
      match m.replacement with
      | none => Except.error EngineError.ConfigurationError
      | some rep =>
        let next := pyReplace data mat rep
        if next = data then Except.error EngineError.IneffectiveRuleError
        else Except.ok next
  else Except.error EngineError.UnsupportedActionError

/-- The modification loop: rules applied in list order, each seeing the
output of the previous one; the first failure aborts. -/
def run_modifications_data : String → List Modification → Except EngineError String
  | data, [] => Except.ok data
  | data, m :: rest =>
    match apply_modification data m with
    | Except.error e => Except.error e
    | Except.ok next => run_modifications_data next rest

/-- DistGitRepo._run_modifications at the file level: the build-file is read
once into memory before the loop (line 193), and written back only after
every rule has succeeded (line 214); an exception raised inside the loop
propagates before any write, leaving the on-disk file as it was. Returns the
on-disk content afterwards, with the error if one was raised. -/
def run_modifications_file (dockerfile : String) (mods : List Modification) :
    String × Option EngineError :=
  match run_modifications_data dockerfile mods with
  | Except.ok next => (next, none)
  | Except.error e => (dockerfile, some e)

/-! ## Metadata Rewriter (update_distgit_dir, image.py lines 249-299) -/

/-- Base-image resolution (image.py lines 266-281), evaluated in the fixed
order member, image, stream; each configured variant assigns dfp.baseimage,
overwriting whatever an earlier variant assigned (none: never assigned).
resolve_image gives the configured name of the named sibling image;
resolve_stream gives the stream's current image reference. -/
def resolve_baseimage (member image stream : Option String)
    (resolve_image resolve_stream : String → String)
    (version release : String) : Option String :=
  let b0 : Option String := none
  let b1 := match member with
    | some m => some (resolve_image m ++ ":" ++ version ++ "-" ++ release)
    | none => b0
  let b2 := match image with
    | some i => some i
    | none => b1
  match stream with
  | some s => some (resolve_stream s)
  | none => b2

/-- Label rewriting of update_distgit_dir (lines 255-288) on the parsed label
map: overlay every configured label, then force name, com.redhat.component,
name again (after base-image resolution), version and release. -/
def compute_labels (labels0 : List (String × String))
    (config_labels : Option (List (String × String)))
    (config_name metadata_name version release : String) :
    List (String × String) :=
  let l1 := match config_labels with
    | some cl => cl.foldl (fun a kv => setLabel a kv.1 kv.2) labels0
    | none => labels0
  let l2 := setLabel l1 "name" config_name
  let l3 := setLabel l2 "com.redhat.component" metadata_name
  let l4 := setLabel l3 "name" config_name
  let l5 := setLabel l4 "version" version
  setLabel l5 "release" release

/-- Python 2 "\n".join on character-list lines: one separator between
consecutive lines, nothing at the ends. -/
def joinLines : List (List Char) → List Char
  | [] => []
  | [a] => a
  | a :: b :: rest => a ++ '\n' :: joinLines (b :: rest)

/-- Header strip of update_distgit_dir (lines 290-294): split dfp.content
into lines (splitlines(False)), drop every line whose strip() starts with
the marker token, and rejoin the survivors with "\n". -/
def remove_oit_comments (content : String) : String :=
  ⟨joinLines
    ((splitlinesChars content.data).filter
      (fun line => !(pyStartsWith (pyStripChars line) OIT_COMMENT_MARKER.data)))⟩

/-- Managed header text: each comment line written as marker ++ text ++ "\n"
(image.py lines 296-298). -/
def oit_header (comments : List String) : String :=
  String.join (comments.map (fun c => OIT_COMMENT_MARKER ++ c ++ "\n"))

/-- The final build-file write (lines 296-299): the managed header followed
by the header-stripped content. -/
def final_content (comments : List String) (content : String) : String :=
  oit_header comments ++ remove_oit_comments content

/-- Label and base-image rewriting of one build-file through the external
Manifest Accessor (lines 249-288): parse the label map, rewrite it, resolve
the base image, and read the accessor's content back. -/
def metadata_phase (acc : ManifestAccessor) (cfg : Config)
    (resolve_image resolve_stream : String → String)
    (version release : String) (content : String) : String :=
  let labels0 := acc.labels_of content
  let labelsF := compute_labels labels0 cfg.labels cfg.name cfg.metadata_name version release
  let baseF := resolve_baseimage cfg.from_member cfg.from_image cfg.from_stream
    resolve_image resolve_stream version release
  acc.content_after content labelsF baseF

/-! ## Reconciliation Driver (DistGitRepo.update_distgit_dir) -/

/-- Base managed comments reset at the start of every run
(image.py lines 221-225). -/
def base_oit_comments : List String :=
  ["This file is managed by the OpenShift Image tool: github.com/openshift/enterprise-images",
   "by the OpenShift Continuous Delivery team (#aos-cd-team on IRC).",
   ""]

/-- Comments appended when no source is configured (lines 237-241). -/
def no_source_oit_comments : List String :=
  ["Some aspects of this file may be managed programmatically. For example, the image name, labels (version,",
   "release, and other), and the base FROM. Changes made directly in distgit may be lost during the next",
   "reconciliation.",
   ""]

/-- DistGitRepo.update_distgit_dir (image.py lines 217-299) on the modeled
checkout state: reset the comment block; merge source when configured (drift
detection and notification included); require a build-file at the checkout
root; run configured modifications; rewrite metadata through the accessor;
strip old managed comments and write header plus content back. Returns the
new checkout state and the notification records emitted. -/
def update_distgit_dir (acc : ManifestAccessor) (cfg : Config)
    (resolve_image resolve_stream : String → String)
    (version release : String) (st : DistgitState) :
    Except EngineError (DistgitState × List Record) :=
  match cfg.source with
  | some src =>
    match merge_source src cfg.metadata_name cfg.owners st with
    | Except.error e => Except.error e
    | Except.ok (df, snap, recs) =>
      match df with
      | none => Except.error EngineError.MissingManifestError
      | some content =>
        match (match src.modifications with
               | some mods => run_modifications_data content mods
               | none => Except.ok content) with
        | Except.error e => Except.error e
        | Except.ok content2 =>
          let comments := base_oit_comments ++ merge_oit_comments
          let rendered := metadata_phase acc cfg resolve_image resolve_stream
            version release content2
          Except.ok ({ dockerfile := some (final_content comments rendered),
                       snapshot := snap }, recs)
  | none =>
    match st.dockerfile with
    | none => Except.error EngineError.MissingManifestError
    | some content =>
      let comments := base_oit_comments ++ no_source_oit_comments
      let rendered := metadata_phase acc cfg resolve_image resolve_stream
        version release content
      Except.ok ({ dockerfile := some (final_content comments rendered),
                   snapshot := st.snapshot }, [])

/-! ## Supporting lemmas -/

/-- A replace scan that never finds the pattern leaves the text unchanged. -/
theorem replaceGo_no_occurrence (mc : Char) (mrest r : List Char) :
    ∀ (fuel : Nat) (l : List Char), containsSub l (mc :: mrest) = false →
      replaceGo mc mrest r l fuel = l := by
  intro fuel
  induction fuel with
  | zero =>
    intro l _
    cases l with
    | nil => rfl
    | cons c rest => rfl
  | succ n ih =>
    intro l h
    cases l with
    | nil => rfl
    | cons c rest =>
      unfold containsSub at h
      rw [Bool.or_eq_false_iff] at h
      unfold replaceGo
      rw [h.1]
      simp only [Bool.false_eq_true, if_false]
      rw [ih rest h.2]

theorem pyReplace_no_occurrence (s mat rep : String) (hne : mat ≠ "")
    (h : containsSub s.data mat.data = false) : pyReplace s mat rep = s := by
  unfold pyReplace
  cases hm : mat.data with
  | nil =>
    exact absurd (by cases mat; cases hm; rfl) hne
  | cons mc mrest =>
    rw [hm] at h
    cases s with
    | mk l =>
      exact congrArg String.mk (replaceGo_no_occurrence mc mrest rep.data l.length l h)

/-! ## C7: pre-clean frame -/

/-- C7. The pre-clean step of the source merge never deletes a checkout entry
whose name begins with "." nor an entry on the fixed allow-list
("additional-tags"), and deletes every other top-level entry; in particular
for a checkout holding .oit/, .gitignore, additional-tags and old.txt, only
old.txt is gone afterwards. -/
theorem preclean_frame (entries : List String) (ent : String) :
    (ent ∈ preclean entries ↔
      ent ∈ entries ∧
        (pyStartsWith ent.data ".".data = true ∨ ent = "additional-tags")) ∧
    preclean [".oit", ".gitignore", "additional-tags", "old.txt"] =
      [".oit", ".gitignore", "additional-tags"] := by
  constructor
  · unfold preclean preclean_keep
    rw [List.mem_filter]
    simp
  · decide

/-! ## C3: drift detector -/

/-- C3. After a source merge: with no snapshot at .oit/Dockerfile.git.last the
drift detector notifies and leaves the snapshot absent; with a snapshot whose
content differs from the merged build-file it notifies and replaces the
snapshot with the new build-file; with an identical snapshot it neither
notifies nor changes the snapshot. -/
theorem drift_detect_cases (df : Option String) (last d : String) :
    drift_detect none df = Except.ok (true, none) ∧
    drift_detect (some last) (some d) =
      (if last = d then Except.ok (false, some last)
       else Except.ok (true, some d)) := by
  constructor
  · rfl
  · by_cases h : last = d
    · simp only [drift_detect, if_pos h]
    · simp only [drift_detect, if_neg h]

/-! ## C4: base-image directive precedence -/

/-- C4. With both a member and an image directive configured (and no stream),
the final base image is the image literal; in general the three variants are
evaluated in the fixed order member, image, stream, each present variant
overwriting any previously computed base image. -/
theorem resolve_baseimage_precedence (m i version release : String)
    (member image stream : Option String) (rI rS : String → String) :
    resolve_baseimage (some m) (some i) none rI rS version release = some i ∧
    resolve_baseimage member image stream rI rS version release =
      (match stream with
       | some s => some (rS s)
       | none =>
         match image with
         | some i' => some i'
         | none =>
           match member with
           | some m' => some (rI m' ++ ":" ++ version ++ "-" ++ release)
           | none => none) := by
  refine ⟨rfl, ?_⟩
  cases stream <;> cases image <;> cases member <;> rfl

/-! ## C10: modification atomicity -/

/-- C10. _run_modifications reads the build-file once before any rule runs
and writes only after every rule succeeded, so on any rule failure the
on-disk build-file is unchanged; on success the written file is the result of
the in-memory rule fold. -/
theorem run_modifications_atomic (df : String) (mods : List Modification)
    (e : EngineError) :
    ((run_modifications_file df mods).2 = some e →
      (run_modifications_file df mods).1 = df ∧
      run_modifications_data df mods = Except.error e) ∧
    ((run_modifications_file df mods).2 = none →
      run_modifications_data df mods =
        Except.ok (run_modifications_file df mods).1) := by
  unfold run_modifications_file
  cases h : run_modifications_data df mods with
  | ok next =>
    refine ⟨fun hc => by simp at hc, fun _ => rfl⟩
  | error e' =>
    refine ⟨fun hc => ?_, fun hc => by simp at hc⟩
    simp only [Option.some.injEq] at hc
    exact ⟨rfl, by rw [hc]⟩

/-! ## C6: the replace modification rule -/

/-- C6. A replace rule fails with the configuration error when match or
replacement is absent; otherwise it performs Python's literal every-occurrence
substring substitution and fails with the ineffective-rule error exactly when
the result is byte-identical to the input (in particular a pattern with no
occurrence leaves the text unchanged); rules run in list order, each seeing
the previous rule's output, and a failure propagates. -/
theorem replace_rule_semantics (data mat rep d' : String) (m : Modification)
    (e : EngineError) (rest : List Modification) :
    (m.action = some "replace" → m.mtch = none ∨ m.replacement = none →
      apply_modification data m = Except.error EngineError.ConfigurationError) ∧
    (apply_modification data ⟨some "replace", some mat, some rep⟩ =
      if pyReplace data mat rep = data then
        Except.error EngineError.IneffectiveRuleError
      else Except.ok (pyReplace data mat rep)) ∧
    (mat ≠ "" → containsSub data.data mat.data = false →
      pyReplace data mat rep = data) ∧
    run_modifications_data data [] = Except.ok data ∧
    (apply_modification data m = Except.ok d' →
      run_modifications_data data (m :: rest) = run_modifications_data d' rest) ∧
    (apply_modification data m = Except.error e →
      run_modifications_data data (m :: rest) = Except.error e) := by
  refine ⟨?_, ?_, pyReplace_no_occurrence data mat rep, rfl, ?_, ?_⟩
  · intro ha hmr
    unfold apply_modification
    rw [ha, if_pos rfl]
    rcases hmr with hm | hr
    · rw [hm]
    · cases hm : m.mtch with
      | none => rfl
      | some mv => rw [hr]
  · unfold apply_modification
    rw [if_pos rfl]
  · intro h
    have hu : run_modifications_data data (m :: rest) =
        match apply_modification data m with
        | Except.error e' => Except.error e'
        | Except.ok next => run_modifications_data next rest := rfl
    rw [hu, h]
  · intro h
    have hu : run_modifications_data data (m :: rest) =
        match apply_modification data m with
        | Except.error e' => Except.error e'
        | Except.ok next => run_modifications_data next rest := rfl
    rw [hu, h]

/-! ## Label map lemmas -/

theorem lookupLabel_setLabel_self (l : List (String × String)) (k v : String) :
    lookupLabel (setLabel l k v) k = some v := by
  induction l with
  | nil => simp [setLabel, lookupLabel]
  | cons hd tl ih =>
    obtain ⟨k0, v0⟩ := hd
    by_cases h : k0 = k
    · simp [setLabel, lookupLabel, h]
    · simp [setLabel, lookupLabel, h, ih]

theorem lookupLabel_setLabel_ne (l : List (String × String)) (k v k' : String)
    (h : k' ≠ k) : lookupLabel (setLabel l k v) k' = lookupLabel l k' := by
  induction l with
  | nil =>
    simp only [setLabel, lookupLabel]
    rw [if_neg (fun hh => h hh.symm)]
  | cons hd tl ih =>
    obtain ⟨k0, v0⟩ := hd
    by_cases h0 : k0 = k
    · simp only [setLabel, if_pos h0, lookupLabel]
      rw [if_neg (fun hh => h (h0 ▸ hh).symm), if_neg (fun hh => h (h0 ▸ hh).symm)]
    · simp only [setLabel, if_neg h0, lookupLabel]
      by_cases h1 : k0 = k'
      · rw [if_pos h1, if_pos h1]
      · rw [if_neg h1, if_neg h1, ih]

theorem lookupLabel_foldl_setLabel_not_mem (cl : List (String × String)) :
    ∀ (l0 : List (String × String)) (k : String), k ∉ cl.map Prod.fst →
      lookupLabel (cl.foldl (fun a kv => setLabel a kv.1 kv.2) l0) k =
        lookupLabel l0 k := by
  induction cl with
  | nil => intro l0 k _; rfl
  | cons hd tl ih =>
    intro l0 k h
    rw [List.map_cons, List.mem_cons] at h
    push_neg at h
    rw [List.foldl_cons, ih _ _ h.2, lookupLabel_setLabel_ne _ _ _ _ h.1]

theorem lookupLabel_foldl_setLabel_mem (cl : List (String × String)) :
    ∀ (l0 : List (String × String)) (k v : String),
      (cl.map Prod.fst).Nodup → (k, v) ∈ cl →
      lookupLabel (cl.foldl (fun a kv => setLabel a kv.1 kv.2) l0) k = some v := by
  induction cl with
  | nil => intro l0 k v _ hm; cases hm
  | cons hd tl ih =>
    intro l0 k v hnd hm
    rw [List.map_cons, List.nodup_cons] at hnd
    rw [List.foldl_cons]
    rcases List.mem_cons.mp hm with heq | hmem
    · have h1 : k ∉ tl.map Prod.fst := by
        rw [← heq] at hnd
        exact hnd.1
      rw [lookupLabel_foldl_setLabel_not_mem tl _ _ h1, ← heq]
      exact lookupLabel_setLabel_self l0 k v
    · exact ih _ _ _ hnd.2 hmem

/-! ## C8: computed and configured labels -/

/-- C8. In the final label map every configured label keeps its configured
value unless overridden by a computed label, and the computed labels are
force-set regardless of the input build-file's labels: name = configured image
name, com.redhat.component = checkout name, version and release = supplied
strings. -/
theorem compute_labels_forced_and_config
    (labels0 : List (String × String)) (cl0 : Option (List (String × String)))
    (cl : List (String × String))
    (config_name metadata_name version release k v : String)
    (hnd : (cl.map Prod.fst).Nodup) (hmem : (k, v) ∈ cl)
    (h1 : k ≠ "name") (h2 : k ≠ "com.redhat.component")
    (h3 : k ≠ "version") (h4 : k ≠ "release") :
    lookupLabel (compute_labels labels0 cl0 config_name metadata_name version release)
        "name" = some config_name ∧
    lookupLabel (compute_labels labels0 cl0 config_name metadata_name version release)
        "com.redhat.component" = some metadata_name ∧
    lookupLabel (compute_labels labels0 cl0 config_name metadata_name version release)
        "version" = some version ∧
    lookupLabel (compute_labels labels0 cl0 config_name metadata_name version release)
        "release" = some release ∧
    lookupLabel (compute_labels labels0 (some cl) config_name metadata_name version release)
        k = some v := by
  refine ⟨?_, ?_, ?_, ?_, ?_⟩
  · simp only [compute_labels]
    rw [lookupLabel_setLabel_ne _ _ _ _ (by decide : ("name" : String) ≠ "release"),
      lookupLabel_setLabel_ne _ _ _ _ (by decide : ("name" : String) ≠ "version"),
      lookupLabel_setLabel_self]
  · simp only [compute_labels]
    rw [lookupLabel_setLabel_ne _ _ _ _
        (by decide : ("com.redhat.component" : String) ≠ "release"),
      lookupLabel_setLabel_ne _ _ _ _
        (by decide : ("com.redhat.component" : String) ≠ "version"),
      lookupLabel_setLabel_ne _ _ _ _
        (by decide : ("com.redhat.component" : String) ≠ "name"),
      lookupLabel_setLabel_self]
  · simp only [compute_labels]
    rw [lookupLabel_setLabel_ne _ _ _ _ (by decide : ("version" : String) ≠ "release"),
      lookupLabel_setLabel_self]
  · simp only [compute_labels]
    rw [lookupLabel_setLabel_self]
  · simp only [compute_labels]
    rw [lookupLabel_setLabel_ne _ _ _ _ h4, lookupLabel_setLabel_ne _ _ _ _ h3,
      lookupLabel_setLabel_ne _ _ _ _ h1,
      lookupLabel_setLabel_ne _ _ _ _ h2, lookupLabel_setLabel_ne _ _ _ _ h1]
    exact lookupLabel_foldl_setLabel_mem cl labels0 k v hnd hmem

/-- Witness for compute_labels_forced_and_config at a concrete input. -/
theorem compute_labels_forced_and_config_witness :
    lookupLabel (compute_labels [("name", "old")] (some [("release-type", "stable")])
        "foo" "bar" "1.2" "3") "name" = some "foo" ∧
    lookupLabel (compute_labels [("name", "old")] (some [("release-type", "stable")])
        "foo" "bar" "1.2" "3") "com.redhat.component" = some "bar" ∧
    lookupLabel (compute_labels [("name", "old")] (some [("release-type", "stable")])
        "foo" "bar" "1.2" "3") "version" = some "1.2" ∧
    lookupLabel (compute_labels [("name", "old")] (some [("release-type", "stable")])
        "foo" "bar" "1.2" "3") "release" = some "3" ∧
    lookupLabel (compute_labels [("name", "old")] (some [("release-type", "stable")])
        "foo" "bar" "1.2" "3") "release-type" = some "stable" :=
  compute_labels_forced_and_config [("name", "old")] (some [("release-type", "stable")])
    [("release-type", "stable")] "foo" "bar" "1.2" "3" "release-type" "stable"
    (by decide) (by decide) (by decide) (by decide) (by decide) (by decide)

/-! ## C2: manifest rename targets a misspelled name -/

/-- Trivial manifest accessor for concrete runs: parses no labels and leaves
content unchanged by the metadata phase. -/
def trivAcc : ManifestAccessor :=
  { labels_of := fun _ => [], content_after := fun c _ _ => c }

/-- Concrete configuration whose source names a custom build-file. -/
def cfgC2 : Config :=
  { name := "foo", metadata_name := "foo",
    source := some { tree_dockerfile := some "FROM base\n",
                     tree_has_configured := true,
                     dockerfile_name := some "Dockerfile.custom",
                     modifications := none },
    labels := none, from_member := none, from_image := none,
    from_stream := none, owners := some ["ocp-team"] }

/-- C2 (code bug). With a configured custom build-file name present after the
copy, the rename step renames it to the literal "Dockerilfe" of image.py line
153 instead of "Dockerfile", so no default-named build-file exists afterwards
and the subsequent build-file-existence check fails the whole run. -/
theorem manifest_rename_target_misspelled :
    manifest_rename_files ["Dockerfile", "Dockerfile.custom"] "Dockerfile.custom" =
      ["Dockerilfe"] ∧
    stray_cleanup ["Dockerilfe"] = ["Dockerilfe"] ∧
    ("Dockerilfe" : String) ≠ "Dockerfile" ∧
    merge_dockerfile_result
        { tree_dockerfile := some "FROM base\n",
          tree_has_configured := true,
          dockerfile_name := some "Dockerfile.custom",
          modifications := none } = Except.ok none ∧
    update_distgit_dir trivAcc cfgC2 id id "1.0" "1" ⟨none, none⟩ =
      Except.error EngineError.MissingManifestError := by
  exact ⟨by decide, by decide, by decide, rfl, rfl⟩

/-! ## C5: the managed-header rewrite is not idempotent -/

set_option maxRecDepth 8192 in
/-- C5 (code bug). The strip step removes a line only when its strip() still
starts with the marker; the header line holding the marker with an empty
comment ("#oit## ") strips to "#oit##" and survives, so re-running the
strip-then-prepend step on already-managed content leaves leftover marker
lines under the fresh header instead of exactly one header block. -/
theorem managed_header_strip_not_idempotent :
    remove_oit_comments (oit_header base_oit_comments) = OIT_COMMENT_MARKER ∧
    final_content base_oit_comments (final_content base_oit_comments "FROM base") =
      oit_header base_oit_comments ++ "#oit## \nFROM base" ∧
    final_content base_oit_comments (final_content base_oit_comments "FROM base") ≠
      final_content base_oit_comments "FROM base" := by
  exact ⟨by decide, by decide, by decide⟩

/-! ## C9: final build-file layout -/

/-- Modelled from the spec's words for comparison with the source: lines of
content with every byte kept, each line carrying its trailing "\n"
terminator. -/
def linesWithNLGo (cur : List Char) : List Char → List (List Char)
  | [] => if cur.isEmpty then [] else [cur.reverse]
  | c :: rest =>
    if c = '\n' then (cur.reverse ++ [c]) :: linesWithNLGo [] rest
    else linesWithNLGo (c :: cur) rest

/-- Modelled from the spec's words: the header-stripped input content kept
byte-for-byte — every line whose strip() starts with the marker is removed,
and all remaining bytes, terminators included, are kept verbatim. -/
def spec_strip_verbatim (content : String) : String :=
  ⟨((linesWithNLGo [] content.data).filter
      (fun line => !(pyStartsWith (pyStripChars line) OIT_COMMENT_MARKER.data))).flatten⟩

/-- Drop a single trailing "\n" from a character list, if present. -/
def stripTrailChars (l : List Char) : List Char :=
  if l.getLast? = some '\n' then l.dropLast else l

/-- Drop a single trailing "\n", if present. -/
def stripTrailNL (s : String) : String :=
  ⟨stripTrailChars s.data⟩

theorem stripTrailChars_append (x y : List Char) (hy : y ≠ []) :
    stripTrailChars (x ++ y) = x ++ stripTrailChars y := by
  unfold stripTrailChars
  rw [List.getLast?_append]
  cases hgl : y.getLast? with
  | none => exact absurd (List.getLast?_eq_none_iff.mp hgl) hy
  | some a =>
    simp only [Option.or_some]
    by_cases ha : a = '\n'
    · rw [if_pos (by rw [ha]), if_pos (by rw [ha]),
        List.dropLast_append_of_ne_nil x hy]
    · rw [if_neg (fun hh => ha (Option.some.inj hh)),
        if_neg (fun hh => ha (Option.some.inj hh))]

theorem pyStripChars_concat_ws (l : List Char) (c : Char)
    (hc : isPyWhitespace c = true) : pyStripChars (l ++ [c]) = pyStripChars l := by
  unfold pyStripChars
  rw [List.dropWhile_append]
  by_cases h : (l.dropWhile isPyWhitespace).isEmpty
  · rw [if_pos h]
    have h1 : List.dropWhile isPyWhitespace [c] = [] := by
      rw [List.dropWhile_cons, if_pos hc]
      rfl
    have h2 : l.dropWhile isPyWhitespace = [] := List.isEmpty_iff.mp h
    rw [h1, h2]
  · rw [if_neg h, List.reverse_append, List.reverse_singleton,
      List.singleton_append, List.dropWhile_cons, if_pos hc]

/-- The strip filter of remove_oit_comments gives the same verdict on a line
with and without its trailing newline. -/
theorem oit_filter_concat_nl (line : List Char) :
    (!(pyStartsWith (pyStripChars (line ++ ['\n'])) OIT_COMMENT_MARKER.data)) =
      (!(pyStartsWith (pyStripChars line) OIT_COMMENT_MARKER.data)) := by
  rw [pyStripChars_concat_ws line '\n' (by decide)]

/-- Every character list containing a newline splits as a newline-free line,
the newline, and a remainder. -/
theorem exists_line_decomp (l : List Char) (h : '\n' ∈ l) :
    ∃ line rest, l = line ++ '\n' :: rest ∧ ∀ c ∈ line, c ≠ '\n' := by
  induction l with
  | nil => cases h
  | cons c tl ih =>
    by_cases hc : c = '\n'
    · exact ⟨[], tl, by rw [hc]; rfl, by intro c' hc'; cases hc'⟩
    · have htl : '\n' ∈ tl := by
        rcases List.mem_cons.mp h with h' | h'
        · exact absurd h'.symm hc
        · exact h'
      obtain ⟨line, rest, hl, hline⟩ := ih htl
      refine ⟨c :: line, rest, by rw [List.cons_append, ← hl], ?_⟩
      intro c' hc'
      rcases List.mem_cons.mp hc' with h' | h'
      · rw [h']; exact hc
      · exact hline c' h'

theorem splitlinesGo_cons_nl (cur rest : List Char) :
    splitlinesGo cur ('\n' :: rest) =
      cur.reverse :: (if rest.isEmpty then [] else splitlinesGo [] rest) := by
  rw [splitlinesGo.eq_def]
  dsimp only
  rw [if_neg (by decide : ¬('\n' : Char) = '\r'), if_pos rfl]

theorem splitlinesGo_cons_other (cur : List Char) (c : Char) (rest : List Char)
    (h1 : c ≠ '\r') (h2 : c ≠ '\n') :
    splitlinesGo cur (c :: rest) = splitlinesGo (c :: cur) rest := by
  rw [splitlinesGo.eq_def]
  dsimp only
  rw [if_neg h1, if_neg h2]

theorem linesWithNLGo_cons_nl (cur rest : List Char) :
    linesWithNLGo cur ('\n' :: rest) =
      (cur.reverse ++ ['\n']) :: linesWithNLGo [] rest := by
  rw [linesWithNLGo.eq_def]
  dsimp only
  rw [if_pos rfl]

theorem linesWithNLGo_cons_other (cur : List Char) (c : Char) (rest : List Char)
    (h : c ≠ '\n') :
    linesWithNLGo cur (c :: rest) = linesWithNLGo (c :: cur) rest := by
  rw [linesWithNLGo.eq_def]
  dsimp only
  rw [if_neg h]

theorem splitlinesGo_single (line : List Char)
    (h : ∀ c ∈ line, c ≠ '\n' ∧ c ≠ '\r') :
    ∀ cur, splitlinesGo cur line = [cur.reverse ++ line] := by
  induction line with
  | nil =>
    intro cur
    rw [List.append_nil]
    rfl
  | cons c tl ih =>
    intro cur
    have hc := h c (List.mem_cons_self c tl)
    have htl : ∀ c' ∈ tl, c' ≠ '\n' ∧ c' ≠ '\r' :=
      fun c' hc' => h c' (List.mem_cons_of_mem c hc')
    rw [splitlinesGo_cons_other cur c tl hc.2 hc.1, ih htl (c :: cur),
      List.reverse_cons, List.append_assoc, List.singleton_append]

theorem splitlinesGo_break (line rest : List Char)
    (h : ∀ c ∈ line, c ≠ '\n' ∧ c ≠ '\r') :
    ∀ cur, splitlinesGo cur (line ++ '\n' :: rest) =
      (cur.reverse ++ line) ::
        (if rest.isEmpty then [] else splitlinesGo [] rest) := by
  induction line with
  | nil =>
    intro cur
    rw [List.nil_append, splitlinesGo_cons_nl, List.append_nil]
  | cons c tl ih =>
    intro cur
    have hc := h c (List.mem_cons_self c tl)
    have htl : ∀ c' ∈ tl, c' ≠ '\n' ∧ c' ≠ '\r' :=
      fun c' hc' => h c' (List.mem_cons_of_mem c hc')
    rw [List.cons_append, splitlinesGo_cons_other cur c _ hc.2 hc.1,
      ih htl (c :: cur), List.reverse_cons, List.append_assoc,
      List.singleton_append]

theorem linesWithNLGo_single (line : List Char) (h : ∀ c ∈ line, c ≠ '\n') :
    ∀ cur, linesWithNLGo cur line =
      if (cur.reverse ++ line).isEmpty then [] else [cur.reverse ++ line] := by
  induction line with
  | nil =>
    intro cur
    rw [List.append_nil]
    cases cur with
    | nil => rfl
    | cons a tl =>
      rw [linesWithNLGo.eq_def]
      dsimp only
      rw [if_neg (by simp [List.isEmpty_iff] : ¬(a :: tl).reverse.isEmpty = true)]
      rw [if_neg]
      simp [List.isEmpty_iff]
  | cons c tl ih =>
    intro cur
    have hc := h c (List.mem_cons_self c tl)
    have htl : ∀ c' ∈ tl, c' ≠ '\n' :=
      fun c' hc' => h c' (List.mem_cons_of_mem c hc')
    rw [linesWithNLGo_cons_other cur c tl hc, ih htl (c :: cur),
      List.reverse_cons, List.append_assoc, List.singleton_append]

theorem linesWithNLGo_break (line rest : List Char) (h : ∀ c ∈ line, c ≠ '\n') :
    ∀ cur, linesWithNLGo cur (line ++ '\n' :: rest) =
      (cur.reverse ++ (line ++ ['\n'])) :: linesWithNLGo [] rest := by
  induction line with
  | nil =>
    intro cur
    rw [List.nil_append, linesWithNLGo_cons_nl, List.nil_append]
  | cons c tl ih =>
    intro cur
    have hc := h c (List.mem_cons_self c tl)
    have htl : ∀ c' ∈ tl, c' ≠ '\n' :=
      fun c' hc' => h c' (List.mem_cons_of_mem c hc')
    rw [List.cons_append, linesWithNLGo_cons_other cur c _ hc,
      ih htl (c :: cur), List.reverse_cons, List.append_assoc,
      List.singleton_append, List.cons_append]

/-- Bridge between the source's splitlines/filter/"\n".join strip and the
spec-side byte-preserving strip: on content free of carriage returns, the
rejoined stripped lines equal the byte-preserving strip with one trailing
newline dropped; moreover the filtered byte-preserving lines are as many as
the rejoined ones and all nonempty. -/
theorem strip_join_bridge (p : List Char → Bool)
    (hp : ∀ line, p (line ++ ['\n']) = p line) :
    ∀ (n : Nat) (l : List Char), l.length ≤ n → (∀ c ∈ l, c ≠ '\r') →
      ((linesWithNLGo [] l).filter p).length =
        ((splitlinesChars l).filter p).length ∧
      (∀ g ∈ (linesWithNLGo [] l).filter p, g ≠ []) ∧
      joinLines ((splitlinesChars l).filter p) =
        stripTrailChars ((linesWithNLGo [] l).filter p).flatten := by
  intro n
  induction n with
  | zero =>
    intro l hl _
    have hnil : l = [] := List.length_eq_zero.mp (Nat.le_zero.mp hl)
    subst hnil
    refine ⟨rfl, ?_, rfl⟩
    intro g hg
    cases hg
  | succ n ihn =>
    intro l hl hcr
    by_cases hmem : '\n' ∈ l
    · obtain ⟨line, rest, rfl, hline⟩ := exists_line_decomp l hmem
      have hlineb : ∀ c ∈ line, c ≠ '\n' ∧ c ≠ '\r' := by
        intro c hcm
        exact ⟨hline c hcm, hcr c (List.mem_append_left _ hcm)⟩
      have hrestcr : ∀ c ∈ rest, c ≠ '\r' := by
        intro c hcm
        exact hcr c (List.mem_append_right _ (List.mem_cons_of_mem _ hcm))
      have hrestlen : rest.length ≤ n := by
        rw [List.length_append, List.length_cons] at hl
        omega
      obtain ⟨ihlen, ihne, ihjoin⟩ := ihn rest hrestlen hrestcr
      have hcode : splitlinesChars (line ++ '\n' :: rest) =
          line :: splitlinesChars rest := by
        have h1 : splitlinesChars (line ++ '\n' :: rest) =
            splitlinesGo [] (line ++ '\n' :: rest) := by
          cases line with
          | nil => rfl
          | cons a t => rfl
        rw [h1, splitlinesGo_break line rest hlineb [], List.reverse_nil,
          List.nil_append]
        cases rest with
        | nil => rfl
        | cons b t => rfl
      have hspec : linesWithNLGo [] (line ++ '\n' :: rest) =
          (line ++ ['\n']) :: linesWithNLGo [] rest := by
        rw [linesWithNLGo_break line rest hline [], List.reverse_nil,
          List.nil_append]
      rw [hcode, hspec, List.filter_cons, List.filter_cons, hp line]
      cases hpl : p line with
      | false =>
        rw [if_neg Bool.false_ne_true, if_neg Bool.false_ne_true]
        exact ⟨ihlen, ihne, ihjoin⟩
      | true =>
        rw [if_pos rfl, if_pos rfl]
        refine ⟨?_, ?_, ?_⟩
        · rw [List.length_cons, List.length_cons, ihlen]
        · intro g hg
          rcases List.mem_cons.mp hg with hg' | hg'
          · rw [hg']
            intro h0
            obtain ⟨-, h2⟩ := List.append_eq_nil.mp h0
            cases h2
          · exact ihne g hg'
        · rw [List.flatten_cons]
          cases hF : (splitlinesChars rest).filter p with
          | nil =>
            have hG : (linesWithNLGo [] rest).filter p = [] := by
              rw [hF] at ihlen
              exact List.length_eq_zero.mp ihlen
            rw [hG, List.flatten_nil, List.append_nil]
            have hjl : joinLines [line] = line := rfl
            rw [hjl]
            unfold stripTrailChars
            rw [List.getLast?_concat, if_pos rfl, List.dropLast_concat]
          | cons f F' =>
            have hGne : (linesWithNLGo [] rest).filter p ≠ [] := by
              intro h0
              rw [h0, hF] at ihlen
              simp at ihlen
            have hGfne : ((linesWithNLGo [] rest).filter p).flatten ≠ [] := by
              cases hG : (linesWithNLGo [] rest).filter p with
              | nil => exact absurd hG hGne
              | cons g G' =>
                rw [List.flatten_cons]
                intro h0
                obtain ⟨hg0, -⟩ := List.append_eq_nil.mp h0
                exact (ihne g (by rw [hG]; exact List.mem_cons_self g G')) hg0
            have hjl : joinLines (line :: f :: F') =
                line ++ '\n' :: joinLines (f :: F') := rfl
            rw [hjl, ← hF, ihjoin, stripTrailChars_append _ _ hGfne,
              List.append_assoc, List.singleton_append]
    · cases l with
      | nil =>
        refine ⟨rfl, ?_, rfl⟩
        intro g hg
        cases hg
      | cons a t =>
        have hlb : ∀ c ∈ a :: t, c ≠ '\n' ∧ c ≠ '\r' := by
          intro c hcm
          refine ⟨?_, hcr c hcm⟩
          intro h0
          exact hmem (h0 ▸ hcm)
        have hcode : splitlinesChars (a :: t) = [a :: t] := by
          have h1 : splitlinesChars (a :: t) = splitlinesGo [] (a :: t) := rfl
          rw [h1, splitlinesGo_single (a :: t) hlb [], List.reverse_nil,
            List.nil_append]
        have hspec : linesWithNLGo [] (a :: t) = [a :: t] := by
          rw [linesWithNLGo_single (a :: t) (fun c hc => (hlb c hc).1) [],
            List.reverse_nil, List.nil_append]
          rfl
        rw [hcode, hspec, List.filter_cons]
        cases hpl : p (a :: t) with
        | false =>
          rw [if_neg Bool.false_ne_true]
          refine ⟨rfl, ?_, rfl⟩
          intro g hg
          cases hg
        | true =>
          rw [if_pos rfl]
          refine ⟨rfl, ?_, ?_⟩
          · intro g hg
            rcases List.mem_cons.mp hg with hg' | hg'
            · rw [hg']
              intro h0
              cases h0
            · cases hg'
          · have hjl : joinLines ((a :: t) :: List.filter p []) = a :: t := rfl
            have hfl : ((a :: t) :: List.filter p []).flatten = a :: t := by
              rw [List.flatten_cons, List.filter_nil, List.flatten_nil,
                List.append_nil]
            rw [hjl, hfl]
            unfold stripTrailChars
            rw [if_neg]
            intro h0
            exact hmem (List.mem_of_getLast?_eq_some h0)

/-- C9 counterexample. At content "FROM base\n" with one header comment, the
written build-file ends "FROM base" without the trailing newline, so the
non-header portion is not byte-identical to the header-stripped input. -/
theorem final_content_drops_trailing_newline :
    spec_strip_verbatim "FROM base\n" = "FROM base\n" ∧
    final_content ["c"] "FROM base\n" = oit_header ["c"] ++ "FROM base" ∧
    final_content ["c"] "FROM base\n" ≠
      oit_header ["c"] ++ spec_strip_verbatim "FROM base\n" := by
  exact ⟨by decide, by decide, by decide⟩

/-- C9 (amended). The final build-file is the managed header lines, each
written as marker ++ text ++ "\n", followed by the header-stripped original
content with its lines rejoined by single newlines: byte-identical to the
verbatim header-stripped content except that a single trailing line
terminator, if present, is dropped (stated for content whose line
terminators are all "\n"). -/
theorem final_content_layout_normalized (comments : List String)
    (content : String) (hcr : ∀ c ∈ content.data, c ≠ '\r') :
    final_content comments content =
      oit_header comments ++ stripTrailNL (spec_strip_verbatim content) := by
  unfold final_content
  congr 1
  unfold remove_oit_comments stripTrailNL spec_strip_verbatim
  exact congrArg String.mk
    ((strip_join_bridge
        (fun line => !(pyStartsWith (pyStripChars line) OIT_COMMENT_MARKER.data))
        (fun line => oit_filter_concat_nl line)
        content.data.length content.data (Nat.le_refl _) hcr).2.2)

/-- Witness for final_content_layout_normalized at a concrete input. -/
theorem final_content_layout_normalized_witness :
    final_content ["c"] "FROM a\nRUN b\n" =
      oit_header ["c"] ++ stripTrailNL (spec_strip_verbatim "FROM a\nRUN b\n") :=
  final_content_layout_normalized ["c"] "FROM a\nRUN b\n" (by decide)

/-! ## C1: reconciliation idempotence -/

/-- C1. For a source-configured image, re-running update_distgit_dir with the
same configuration, resolvers, accessor and unchanged upstream source on the
state the first successful run left behind succeeds and writes a byte-identical
build-file; and when the drift snapshot already holds content matching the
merged build-file, the second run emits no owner-notification record. -/
theorem update_distgit_dir_idempotent
    (acc : ManifestAccessor) (cfg : Config) (rI rS : String → String)
    (version release : String) (st0 st1 : DistgitState) (recs1 : List Record)
    (src : SourceConfig) (hsrc : cfg.source = some src)
    (h1 : update_distgit_dir acc cfg rI rS version release st0 =
      Except.ok (st1, recs1)) :
    ∃ st2 recs2,
      update_distgit_dir acc cfg rI rS version release st1 =
        Except.ok (st2, recs2) ∧
      st2.dockerfile = st1.dockerfile ∧
      (∀ d : String, merge_dockerfile_result src = Except.ok (some d) →
        st1.snapshot = some d → recs2 = []) := by
  unfold update_distgit_dir at h1 ⊢
  rw [hsrc] at h1 ⊢
  dsimp only at h1 ⊢
  unfold merge_source at h1 ⊢
  cases hmd : merge_dockerfile_result src with
  | error e =>
    rw [hmd] at h1
    simp at h1
  | ok df =>
    rw [hmd] at h1
    dsimp only at h1 ⊢
    cases df with
    | none =>
      cases hs0 : st0.snapshot with
      | some last =>
        rw [hs0] at h1
        simp [drift_detect] at h1
      | none =>
        rw [hs0] at h1
        simp [drift_detect] at h1
    | some content =>
      cases hdd : drift_detect st0.snapshot (some content) with
      | error e =>
        rw [hdd] at h1
        simp at h1
      | ok pr =>
        obtain ⟨notify1, snap1⟩ := pr
        rw [hdd] at h1
        dsimp only at h1
        cases hmods : (match src.modifications with
            | some mods => run_modifications_data content mods
            | none => Except.ok content) with
        | error e =>
          rw [hmods] at h1
          simp at h1
        | ok content2 =>
          rw [hmods] at h1
          dsimp only at h1
          rw [Except.ok.injEq, Prod.mk.injEq] at h1
          obtain ⟨hst1, hrecs1⟩ := h1
          have hsnap1 : st1.snapshot = snap1 := by
            rw [← hst1]
          have hsnapCases : snap1 = none ∨ snap1 = some content := by
            cases hs0 : st0.snapshot with
            | none =>
              rw [hs0] at hdd
              simp only [drift_detect, Except.ok.injEq, Prod.mk.injEq] at hdd
              exact Or.inl hdd.2.symm
            | some last =>
              rw [hs0] at hdd
              by_cases hld : last = content
              · simp only [drift_detect, if_pos hld, Except.ok.injEq,
                  Prod.mk.injEq] at hdd
                exact Or.inr (hld ▸ hdd.2.symm)
              · simp only [drift_detect, if_neg hld, Except.ok.injEq,
                  Prod.mk.injEq] at hdd
                exact Or.inr hdd.2.symm
          rw [hsnap1]
          rcases hsnapCases with hcase | hcase
          · subst hcase
            have hdr2 : drift_detect none (some content) =
                Except.ok (true, none) := rfl
            rw [hdr2]
            dsimp only
            rw [hmods]
            dsimp only
            refine ⟨_, _, rfl, ?_, ?_⟩
            · rw [← hst1]
            · intro d _ hsnap'
              cases hsnap'
          · subst hcase
            have hdr2 : drift_detect (some content) (some content) =
                Except.ok (false, some content) := by
              simp [drift_detect]
            rw [hdr2]
            dsimp only
            rw [hmods]
            dsimp only
            refine ⟨_, _, rfl, ?_, ?_⟩
            · rw [← hst1]
            · intro d _ _
              rfl

/-- Concrete source configuration for the idempotence witness. -/
def srcC1 : SourceConfig :=
  { tree_dockerfile := some "FROM base\n", tree_has_configured := false,
    dockerfile_name := none, modifications := none }

/-- Concrete source-configured image for the idempotence witness. -/
def cfgC1 : Config :=
  { name := "foo", metadata_name := "foo", source := some srcC1,
    labels := none, from_member := none, from_image := none,
    from_stream := none, owners := some ["ocp-team"] }

/-- Checkout state left by a first successful run of update_distgit_dir on
cfgC1 from the state with no build-file and a matching snapshot. -/
def stC1 : DistgitState :=
  { dockerfile :=
      some (final_content (base_oit_comments ++ merge_oit_comments) "FROM base\n"),
    snapshot := some "FROM base\n" }

/-- Witness for update_distgit_dir_idempotent at a concrete input. -/
theorem update_distgit_dir_idempotent_witness :
    ∃ st2 recs2,
      update_distgit_dir trivAcc cfgC1 id id "1.0" "1" stC1 =
        Except.ok (st2, recs2) ∧
      st2.dockerfile = stC1.dockerfile ∧
      (∀ d : String, merge_dockerfile_result srcC1 = Except.ok (some d) →
        stC1.snapshot = some d → recs2 = []) :=
  update_distgit_dir_idempotent trivAcc cfgC1 id id "1.0" "1"
    { dockerfile := none, snapshot := some "FROM base\n" } stC1 [] srcC1 rfl rfl

end Spec2Proof
